import Mathlib

/-!
Verification of the viewport, projection and gesture logic of pigeon-maps
(`src/map/PigeonMap.tsx`).  JavaScript numbers are modelled as real numbers;
the JavaScript remainder operator `%` is modelled by `jsMod` (remainder of
truncated division), and `Math.round` by Mathlib's `round` (floor of `x + 1/2`,
which is exactly the half-up rounding of `Math.round`).
-/

namespace PigeonMaps

open Real

noncomputable section

/-- `2 ** zoom` of the source for a real (possibly fractional) zoom level. -/
def pow2 (z : ℝ) : ℝ := (2 : ℝ) ^ z

/-- `lng2tile` of PigeonMap.tsx: `((lon + 180) / 360) * 2 ** zoom`. -/
def lng2tile (lon zoom : ℝ) : ℝ := ((lon + 180) / 360) * pow2 zoom

/-- `lat2tile` of PigeonMap.tsx (the Web-Mercator latitude-to-tile formula). -/
def lat2tile (lat zoom : ℝ) : ℝ :=
  ((1 - Real.log (Real.tan (lat * π / 180) + 1 / Real.cos (lat * π / 180)) / π) / 2) *
    pow2 zoom

/-- `tile2lng` of PigeonMap.tsx: `(x / 2 ** z) * 360 - 180`. -/
def tile2lng (x z : ℝ) : ℝ := (x / pow2 z) * 360 - 180

/-- `tile2lat` of PigeonMap.tsx, with `n = π - 2πy / 2^z`. -/
def tile2lat (y z : ℝ) : ℝ :=
  (180 / π) *
    Real.arctan
      (0.5 * (Real.exp (π - (2 * π * y) / pow2 z) - Real.exp (-(π - (2 * π * y) / pow2 z))))

/-- Truncation toward zero: the coercion JavaScript applies to the quotient
inside the remainder operator `%`. -/
def jsTrunc (x : ℝ) : ℤ := if 0 ≤ x then ⌊x⌋ else ⌈x⌉

/-- The JavaScript remainder operator `%`: `x - m * trunc(x / m)`. -/
def jsMod (x m : ℝ) : ℝ := x - m * jsTrunc (x / m)

/-- `wrapNumber` of PigeonMap.tsx: `((num % max) + max) % max`, wrapping a
number into the range `[0, max)`. -/
def wrapNumber (num maxV : ℝ) : ℝ := jsMod (jsMod num maxV + maxV) maxV

/-- `pixelToLatLng` of PigeonMap.tsx; `w` and `h` are the viewport width and
height read from the component state, `center` is `(lat, lng)` and the result
is `(lat, lng)` clipped to the Web-Mercator range. -/
def pixelToLatLng (w h : ℝ) (pixel center : ℝ × ℝ) (zoom : ℝ) : ℝ × ℝ :=
  let tileX := lng2tile center.2 zoom + (pixel.1 - w / 2) / 256
  let tileY := lat2tile center.1 zoom + (pixel.2 - h / 2) / 256
  (max (-85.051129) (min 85.051128 (tile2lat tileY zoom)),
   max (-180) (min 180 (tile2lng tileX zoom)))

/-- `latLngToPixel` of PigeonMap.tsx. -/
def latLngToPixel (w h : ℝ) (latLng center : ℝ × ℝ) (zoom : ℝ) : ℝ × ℝ :=
  ((lng2tile latLng.2 zoom - lng2tile center.2 zoom) * 256 + w / 2,
   (lat2tile latLng.1 zoom - lat2tile center.1 zoom) * 256 + h / 2)

/-- `calculateZoomCenter` of PigeonMap.tsx: the new center that keeps the
geographic point under `zoomAroundPixel` fixed across the zoom change. -/
def calculateZoomCenter (w h : ℝ) (center zoomAroundPixel : ℝ × ℝ) (oldZoom newZoom : ℝ) :
    ℝ × ℝ :=
  let zoomFactor := pow2 (newZoom - oldZoom)
  pixelToLatLng w h
    (w / 2 + (zoomAroundPixel.1 - w / 2) * (zoomFactor - 1),
     h / 2 + (zoomAroundPixel.2 - h / 2) * (zoomFactor - 1))
    center newZoom

/-- `limitCenter` of PigeonMap.tsx (of the two state fields it destructures it
only reads the height). -/
def limitCenter (height : ℝ) (center : ℝ × ℝ) (zoom : ℝ) : ℝ × ℝ :=
  let centerU := lng2tile center.2 zoom
  let centerV := lat2tile center.1 zoom
  let heightV := height / 256
  let maxUV := pow2 zoom
  let clippedCenterU := wrapNumber centerU maxUV
  let clippedCenterV := max (heightV / 2) (min (maxUV - heightV / 2) centerV)
  (tile2lat clippedCenterV zoom, tile2lng clippedCenterU zoom)

/-- The `minZoomAllowed` bound of `setCenterZoomTarget`:
`Math.log2(this.state.height / 256)`. -/
def minZoomAllowed (height : ℝ) : ℝ := Real.logb 2 (height / 256)

/-- The `zoomTarget` clip of `setCenterZoomTarget`:
`Math.max(minZoomAllowed, minZoom, Math.min(zoom, maxZoom))`. -/
def zoomTargetClip (height minZoom maxZoom zoom : ℝ) : ℝ :=
  max (minZoomAllowed height) (max minZoom (min zoom maxZoom))

/-- `easeOutQuad` of `animationStep`. -/
def easeOutQuad (t : ℝ) : ℝ := t * (2 - t)

/-- The `zoomStep` that `animationStep` computes from the animation start zoom,
the target zoom, the duration and the elapsed progress. -/
def zoomStepAt (zoomStart zoomTargetV duration progress : ℝ) : ℝ :=
  zoomStart + (zoomTargetV - zoomStart) * easeOutQuad (progress / duration)

/-- The record returned by `tileValues` in PigeonMap.tsx.  `roundedZoom` is an
integer (`Math.round` of the fractional zoom). -/
structure TileValues where
  tileMinX : ℤ
  tileMaxX : ℤ
  tileMinY : ℤ
  tileMaxY : ℤ
  tileCenterX : ℝ
  tileCenterY : ℝ
  roundedZoom : ℤ
  scaleWidth : ℝ
  scaleHeight : ℝ
  scale : ℝ

/-- The slice of the component state that the viewport logic reads and writes:
center, zoom, viewport size and the stale tile layers (`oldTiles`). -/
structure MapState where
  center : ℝ × ℝ
  zoom : ℝ
  width : ℝ
  height : ℝ
  oldTiles : List TileValues

/-- `tileValues` of PigeonMap.tsx. -/
def tileValues (s : MapState) : TileValues :=
  let roundedZoom : ℤ := round s.zoom
  let scale := pow2 (s.zoom - roundedZoom)
  let scaleWidth := s.width / scale
  let scaleHeight := s.height / scale
  let tileCenterX := lng2tile s.center.2 roundedZoom
  let tileCenterY := lat2tile s.center.1 roundedZoom
  let halfWidth := scaleWidth / 2 / 256
  let halfHeight := scaleHeight / 2 / 256
  { tileMinX := ⌊tileCenterX - halfWidth⌋
    tileMaxX := ⌊tileCenterX + halfWidth⌋
    tileMinY := ⌊tileCenterY - halfHeight⌋
    tileMaxY := ⌊tileCenterY + halfHeight⌋
    tileCenterX := tileCenterX
    tileCenterY := tileCenterY
    roundedZoom := roundedZoom
    scaleWidth := scaleWidth
    scaleHeight := scaleHeight
    scale := scale }

/-- The bounds record of `getBounds`. -/
structure Bounds where
  ne : ℝ × ℝ
  sw : ℝ × ℝ

/-- `getBounds` of PigeonMap.tsx. -/
def getBounds (w h : ℝ) (center : ℝ × ℝ) (zoom : ℝ) : Bounds :=
  { ne := pixelToLatLng w h (w - 1, 0) center zoom
    sw := pixelToLatLng w h (0, h - 1) center zoom }

/-- The payload handed to the `onBoundsChanged` callback. -/
structure BoundsChangedEvent where
  center : ℝ × ℝ
  zoom : ℝ
  bounds : Bounds
  initial : Bool
  isAnimating : Bool

/-- The outcome of one `setCenterZoom` call: the state afterwards and the
`onBoundsChanged` payload, when one is fired. -/
structure SetCenterZoomResult where
  state : MapState
  notification : Option BoundsChangedEvent

open Classical in
/-- `setCenterZoom` of PigeonMap.tsx as a state transformer: clips the center
through `limitCenter`, snapshots the current tile grid into `oldTiles` when the
rounded zoom changes, commits the new center and zoom when either the rounded
zoom or the limited center changed, and then fires `onBoundsChanged` once. -/
def setCenterZoom (isAnimating : Bool) (s : MapState) (centerRequest : ℝ × ℝ) (zoomT : ℝ) :
    SetCenterZoomResult :=
  let centerTarget := limitCenter s.height centerRequest zoomT
  let zoomChanged := round s.zoom ≠ round zoomT
  let centerChanged := centerTarget.1 ≠ s.center.1 ∨ centerTarget.2 ≠ s.center.2
  let tv := tileValues s
  let oldTiles1 :=
    if zoomChanged then
      (s.oldTiles.filter fun o => o.roundedZoom != tv.roundedZoom) ++ [tv]
    else s.oldTiles
  if zoomChanged ∨ centerChanged then
    { state := { s with center := centerTarget, zoom := zoomT, oldTiles := oldTiles1 }
      notification := some
        { center := centerTarget
          zoom := zoomT
          bounds := getBounds s.width s.height centerTarget zoomT
          initial := false
          isAnimating := isAnimating } }
  else
    { state := { s with oldTiles := oldTiles1 }, notification := none }

/-- `onTileLoaded` of PigeonMap.tsx.  The `_loadTracker` object is modelled as
an association list from tile keys to their loaded flag; marking a key loaded
and counting the unloaded entries mirror the source's property write and
`Object.values(...).filter((v) => !v).length`. -/
def onTileLoaded (tracker : List (String × Bool)) (oldTiles : List TileValues) (key : String) :
    List (String × Bool) × List TileValues :=
  if (tracker.map Prod.fst).contains key then
    let tracker1 := tracker.map fun e => if e.1 = key then (e.1, true) else e
    let unloadedCount := (tracker1.filter fun e => !e.2).length
    if unloadedCount = 0 then (tracker1, []) else (tracker1, oldTiles)
  else (tracker, oldTiles)

/-- The touch separation distance of `handleTouchStart`/`handleTouchMove`:
`Math.sqrt((t1[0] - t2[0]) ** 2 + (t1[1] - t2[1]) ** 2)`. -/
def touchDistance (t1 t2 : ℝ × ℝ) : ℝ :=
  Real.sqrt ((t1.1 - t2.1) ^ 2 + (t1.2 - t2.2) ^ 2)

/-- The `zoomIncrement` of one two-finger `handleTouchMove` step:
`Math.log2(distance / oldDistance)`. -/
def zoomIncrement (oldDistance distance : ℝ) : ℝ := Real.logb 2 (distance / oldDistance)

/-- The net zoom increment a pinch gesture accumulates over a sequence of
two-finger positions: `handleTouchMove` computes each step's increment from the
previous pair (`_touchLastPixel`) and the new pair, and `setPanZoomTarget` adds
it to the current zoom. -/
def netZoomIncrement : List ((ℝ × ℝ) × (ℝ × ℝ)) → ℝ
  | [] => 0
  | [_] => 0
  | p :: q :: rest =>
      zoomIncrement (touchDistance p.1 p.2) (touchDistance q.1 q.2) +
        netZoomIncrement (q :: rest)


/-! ### Basic facts about `pow2` and the projection functions -/

lemma pow2_pos (z : ℝ) : 0 < pow2 z := Real.rpow_pos_of_pos two_pos z

lemma pow2_ne_zero (z : ℝ) : pow2 z ≠ 0 := (pow2_pos z).ne'

lemma pow2_add (a b : ℝ) : pow2 (a + b) = pow2 a * pow2 b := Real.rpow_add two_pos a b

lemma pow2_natCast (n : ℕ) : pow2 (n : ℝ) = (2 : ℝ) ^ n := by
  rw [pow2, Real.rpow_natCast]

lemma pow2_one : pow2 1 = 2 := Real.rpow_one 2

lemma pow2_two : pow2 2 = 4 := by
  rw [show (2 : ℝ) = ((2 : ℕ) : ℝ) by norm_num, pow2_natCast]
  norm_num

lemma tile2lng_lng2tile (lon z : ℝ) : tile2lng (lng2tile lon z) z = lon := by
  have hp := pow2_ne_zero z
  simp only [tile2lng, lng2tile]
  field_simp
  ring

lemma lng2tile_tile2lng (x z : ℝ) : lng2tile (tile2lng x z) z = x := by
  have hp := pow2_ne_zero z
  simp only [tile2lng, lng2tile]
  field_simp
  ring

lemma lng2tile_scale (lon z0 z1 : ℝ) : lng2tile lon z1 = pow2 (z1 - z0) * lng2tile lon z0 := by
  have h : pow2 (z1 - z0) * pow2 z0 = pow2 z1 := by
    rw [← pow2_add]; congr 1; ring
  simp only [lng2tile]
  rw [← h]; ring

lemma lat2tile_scale (lat z0 z1 : ℝ) : lat2tile lat z1 = pow2 (z1 - z0) * lat2tile lat z0 := by
  have h : pow2 (z1 - z0) * pow2 z0 = pow2 z1 := by
    rw [← pow2_add]; congr 1; ring
  simp only [lat2tile]
  rw [← h]; ring

lemma lng2tile_zero (z : ℝ) : lng2tile 0 z = pow2 z / 2 := by
  simp only [lng2tile]; ring

lemma lat2tile_zero (z : ℝ) : lat2tile 0 z = pow2 z / 2 := by
  simp only [lat2tile]
  rw [show (0 : ℝ) * π / 180 = 0 by ring, Real.tan_zero, Real.cos_zero]
  norm_num
  ring

lemma tile2lng_half (z : ℝ) : tile2lng (pow2 z / 2) z = 0 := by
  have hp := pow2_ne_zero z
  simp only [tile2lng]
  field_simp
  ring

lemma tile2lat_half (z : ℝ) : tile2lat (pow2 z / 2) z = 0 := by
  have hp := pow2_ne_zero z
  simp only [tile2lat]
  rw [show π - 2 * π * (pow2 z / 2) / pow2 z = 0 by field_simp; ring]
  norm_num

/-! ### The Web-Mercator round-trip identities -/

/-- Forward-then-back: `tile2lat` undoes `lat2tile` for latitudes strictly
between the poles. -/
lemma tile2lat_lat2tile (lat z : ℝ) (h1 : -90 < lat) (h2 : lat < 90) :
    tile2lat (lat2tile lat z) z = lat := by
  have hpi : (0 : ℝ) < π := Real.pi_pos
  have hp : pow2 z ≠ 0 := pow2_ne_zero z
  set θ : ℝ := lat * π / 180 with hθ
  have hθ1 : -(π / 2) < θ := by
    rw [hθ]
    nlinarith [mul_pos (by linarith : (0 : ℝ) < lat + 90) hpi]
  have hθ2 : θ < π / 2 := by
    rw [hθ]
    nlinarith [mul_pos (by linarith : (0 : ℝ) < 90 - lat) hpi]
  have hc : 0 < Real.cos θ := Real.cos_pos_of_mem_Ioo ⟨hθ1, hθ2⟩
  set a : ℝ := Real.tan θ + 1 / Real.cos θ with ha
  set b : ℝ := 1 / Real.cos θ - Real.tan θ with hb
  have hab : a * b = 1 := by
    rw [ha, hb, Real.tan_eq_sin_div_cos]
    have hs := Real.sin_sq_add_cos_sq θ
    field_simp
    nlinarith
  have hsum : 0 < a + b := by
    rw [ha, hb]
    have h2c : 0 < 1 / Real.cos θ := by positivity
    linarith
  have hapos : 0 < a := by
    have h01 : (0 : ℝ) < a * b := by rw [hab]; norm_num
    rcases mul_pos_iff.mp h01 with ⟨h, _⟩ | ⟨h, hb'⟩
    · exact h
    · linarith
  have hl : lat2tile lat z = ((1 - Real.log a / π) / 2) * pow2 z := by
    simp only [lat2tile]
  have hn : π - 2 * π * lat2tile lat z / pow2 z = Real.log a := by
    rw [hl]
    field_simp
    ring
  have hstep : tile2lat (lat2tile lat z) z =
      (180 / π) * Real.arctan (0.5 * (Real.exp (Real.log a) - Real.exp (-Real.log a))) := by
    simp only [tile2lat]
    rw [hn]
  rw [hstep, Real.exp_log hapos, Real.exp_neg, Real.exp_log hapos,
    inv_eq_of_mul_eq_one_right hab,
    show (0.5 : ℝ) * (a - b) = Real.tan θ by rw [ha, hb]; ring,
    Real.arctan_tan hθ1 hθ2, hθ]
  field_simp
  ring

/-- Back-then-forward: `lat2tile` undoes `tile2lat` for every tile ordinate. -/
lemma lat2tile_tile2lat (y z : ℝ) : lat2tile (tile2lat y z) z = y := by
  have hpi : (0 : ℝ) < π := Real.pi_pos
  have hp : pow2 z ≠ 0 := pow2_ne_zero z
  set n : ℝ := π - 2 * π * y / pow2 z with hn
  have hsinh : Real.sinh n = 0.5 * (Real.exp n - Real.exp (-n)) := by
    rw [Real.sinh_eq]; ring
  have ht : tile2lat y z = (180 / π) * Real.arctan (Real.sinh n) := by
    simp only [tile2lat]
    rw [show π - (2 * π * y) / pow2 z = n by rw [hn]]
    rw [hsinh]
  have harg : tile2lat y z * π / 180 = Real.arctan (Real.sinh n) := by
    rw [ht]
    field_simp
  have htan : Real.tan (Real.arctan (Real.sinh n)) = Real.sinh n := Real.tan_arctan _
  have hsq : Real.sqrt (1 + Real.sinh n ^ 2) = Real.cosh n := by
    rw [show (1 : ℝ) + Real.sinh n ^ 2 = Real.cosh n ^ 2 by rw [Real.cosh_sq]; ring]
    exact Real.sqrt_sq (Real.cosh_pos n).le
  have hsec : 1 / Real.cos (Real.arctan (Real.sinh n)) = Real.cosh n := by
    rw [Real.cos_arctan, hsq, one_div_one_div]
  simp only [lat2tile]
  rw [harg, htan, hsec, Real.sinh_add_cosh, Real.log_exp, hn]
  field_simp
  ring

/-- `lng2tile` after `tile2lng` across two zoom levels rescales by
`2^(z1 - z0)`. -/
lemma lng2tile_tile2lng_zoom (x z0 z1 : ℝ) :
    lng2tile (tile2lng x z0) z1 = pow2 (z1 - z0) * x := by
  rw [lng2tile_scale (tile2lng x z0) z0 z1, lng2tile_tile2lng]

/-- `lat2tile` after `tile2lat` across two zoom levels rescales by
`2^(z1 - z0)`. -/
lemma lat2tile_tile2lat_zoom (y z0 z1 : ℝ) :
    lat2tile (tile2lat y z0) z1 = pow2 (z1 - z0) * y := by
  rw [lat2tile_scale (tile2lat y z0) z0 z1, lat2tile_tile2lat]

/-! ### `wrapNumber`: the JavaScript remainder wrapped into `[0, max)` -/

lemma jsMod_nonneg_bounds (x m : ℝ) (hm : 0 < m) (hx : 0 ≤ x) :
    0 ≤ jsMod x m ∧ jsMod x m < m := by
  have hq : (0 : ℝ) ≤ x / m := by positivity
  have h1 : ((⌊x / m⌋ : ℤ) : ℝ) ≤ x / m := Int.floor_le _
  have h2 : x / m < ((⌊x / m⌋ : ℤ) : ℝ) + 1 := Int.lt_floor_add_one _
  have e : m * (x / m) = x := by field_simp
  simp only [jsMod, jsTrunc, if_pos hq]
  constructor
  · nlinarith
  · nlinarith

lemma jsMod_neg_bounds (x m : ℝ) (hm : 0 < m) (hx : x < 0) :
    -m < jsMod x m ∧ jsMod x m ≤ 0 := by
  have hq : ¬ (0 : ℝ) ≤ x / m := by
    rw [not_le]
    exact div_neg_of_neg_of_pos hx hm
  have h1 : x / m ≤ ((⌈x / m⌉ : ℤ) : ℝ) := Int.le_ceil _
  have h2 : ((⌈x / m⌉ : ℤ) : ℝ) < x / m + 1 := Int.ceil_lt_add_one _
  have e : m * (x / m) = x := by field_simp
  simp only [jsMod, jsTrunc, if_neg hq]
  constructor
  · nlinarith
  · nlinarith

/-- `wrapNumber` lands in `[0, max)` whenever `max` is positive. -/
lemma wrapNumber_bounds (x m : ℝ) (hm : 0 < m) :
    0 ≤ wrapNumber x m ∧ wrapNumber x m < m := by
  unfold wrapNumber
  rcases le_or_lt 0 x with hx | hx
  · obtain ⟨h1, h2⟩ := jsMod_nonneg_bounds x m hm hx
    exact jsMod_nonneg_bounds _ m hm (by linarith)
  · obtain ⟨h1, h2⟩ := jsMod_neg_bounds x m hm hx
    exact jsMod_nonneg_bounds _ m hm (by linarith)

/-- `wrapNumber` fixes the numbers already in `[0, max)`. -/
lemma wrapNumber_eq_self (x m : ℝ) (h0 : 0 ≤ x) (h1 : x < m) : wrapNumber x m = x := by
  have hm : 0 < m := lt_of_le_of_lt h0 h1
  have hfirst : jsMod x m = x := by
    have hq : (0 : ℝ) ≤ x / m := by positivity
    have hfl : ⌊x / m⌋ = 0 := by
      rw [Int.floor_eq_zero_iff]
      exact ⟨by positivity, by rw [div_lt_one hm]; exact h1⟩
    simp [jsMod, jsTrunc, if_pos hq, hfl]
  unfold wrapNumber
  rw [hfirst]
  have hq2 : (0 : ℝ) ≤ (x + m) / m := by positivity
  have hfl2 : ⌊(x + m) / m⌋ = 1 := by
    rw [Int.floor_eq_iff]
    constructor
    · push_cast
      rw [le_div_iff₀ hm]
      linarith
    · push_cast
      rw [div_lt_iff₀ hm]
      linarith
  simp only [jsMod, jsTrunc, if_pos hq2, hfl2]
  push_cast
  ring

/-- `wrapNumber` changes its input by an integer multiple of the modulus. -/
lemma wrapNumber_sub_int (x m : ℝ) : ∃ k : ℤ, wrapNumber x m = x - k * m := by
  refine ⟨jsTrunc (x / m) + jsTrunc ((jsMod x m + m) / m) - 1, ?_⟩
  simp only [wrapNumber, jsMod]
  push_cast
  ring

/-- `limitCenter` fixes the origin whenever the viewport is no taller than the
world at the given zoom. -/
lemma limitCenter_origin (height z : ℝ) (hh : height / 256 ≤ pow2 z) :
    limitCenter height (0, 0) z = (0, 0) := by
  have hp : 0 < pow2 z := pow2_pos z
  simp only [limitCenter, lng2tile_zero, lat2tile_zero]
  have hwrap : wrapNumber (pow2 z / 2) (pow2 z) = pow2 z / 2 :=
    wrapNumber_eq_self _ _ (by linarith) (by linarith)
  have hmin : min (pow2 z - height / 256 / 2) (pow2 z / 2) = pow2 z / 2 :=
    min_eq_right (by linarith)
  have hmax : max (height / 256 / 2) (pow2 z / 2) = pow2 z / 2 :=
    max_eq_right (by linarith)
  rw [hwrap, hmin, hmax, tile2lat_half, tile2lng_half]

/-- The viewport-center terms cancel exactly when a pixel produced by
`latLngToPixel` is fed back into `pixelToLatLng`. -/
lemma center_cancel (cv t s : ℝ) : cv + ((t - cv) * 256 + s / 2 - s / 2) / 256 = t := by
  ring

/-- C1: for every center, every zoom in [1,18] and every geographic point with
latitude in the valid Web-Mercator range and longitude in [-180,180],
`pixelToLatLng (latLngToPixel p center zoom) center zoom` recovers `p` within
1e-6 degrees in each coordinate (in the real-number model it recovers it
exactly). -/
theorem C1_projection_roundtrip (w h : ℝ) (center p : ℝ × ℝ) (zoom : ℝ)
    (hz1 : 1 ≤ zoom) (hz2 : zoom ≤ 18)
    (hlat1 : -85.051129 ≤ p.1) (hlat2 : p.1 ≤ 85.051128)
    (hlng1 : -180 ≤ p.2) (hlng2 : p.2 ≤ 180) :
    |(pixelToLatLng w h (latLngToPixel w h p center zoom) center zoom).1 - p.1| ≤ 1e-6 ∧
    |(pixelToLatLng w h (latLngToPixel w h p center zoom) center zoom).2 - p.2| ≤ 1e-6 := by
  have exact1 : (pixelToLatLng w h (latLngToPixel w h p center zoom) center zoom).1 = p.1 := by
    simp only [pixelToLatLng, latLngToPixel, center_cancel]
    rw [tile2lat_lat2tile p.1 zoom (by linarith) (by linarith)]
    rw [min_eq_right hlat2, max_eq_right hlat1]
  have exact2 : (pixelToLatLng w h (latLngToPixel w h p center zoom) center zoom).2 = p.2 := by
    simp only [pixelToLatLng, latLngToPixel, center_cancel]
    rw [tile2lng_lng2tile p.2 zoom]
    rw [min_eq_right hlng2, max_eq_right hlng1]
  rw [exact1, exact2]
  norm_num

/-- C1 witness: concrete instance at zoom 2, center and point at the origin,
a 256 by 256 viewport. -/
theorem C1_projection_roundtrip_witness :
    (1 : ℝ) ≤ 2 ∧ (2 : ℝ) ≤ 18 ∧
    (-85.051129 : ℝ) ≤ ((0 : ℝ), (0 : ℝ)).1 ∧ (((0 : ℝ), (0 : ℝ)).1 : ℝ) ≤ 85.051128 ∧
    (-180 : ℝ) ≤ ((0 : ℝ), (0 : ℝ)).2 ∧ (((0 : ℝ), (0 : ℝ)).2 : ℝ) ≤ 180 ∧
    (|(pixelToLatLng 256 256 (latLngToPixel 256 256 (0, 0) (0, 0) 2) (0, 0) 2).1 -
        ((0 : ℝ), (0 : ℝ)).1| ≤ 1e-6 ∧
      |(pixelToLatLng 256 256 (latLngToPixel 256 256 (0, 0) (0, 0) 2) (0, 0) 2).2 -
        ((0 : ℝ), (0 : ℝ)).2| ≤ 1e-6) :=
  ⟨by norm_num, by norm_num, by norm_num, by norm_num, by norm_num, by norm_num,
    C1_projection_roundtrip 256 256 (0, 0) (0, 0) 2 (by norm_num) (by norm_num)
      (by norm_num) (by norm_num) (by norm_num) (by norm_num)⟩

/-- C2 counterexample: with the default bounds `[1, 18]` and a viewport of
height `2^20 * 256` pixels, requesting zoom `-100` commits a zoom of `20`,
outside `[minZoom, maxZoom]`: the `minZoomAllowed` floor overrides `maxZoom`. -/
theorem C2_zoom_clamp_counterexample :
    18 < zoomTargetClip (pow2 20 * 256) 1 18 (-100) := by
  have h1 : minZoomAllowed (pow2 20 * 256) = 20 := by
    unfold minZoomAllowed pow2
    rw [mul_div_cancel_right₀ _ (by norm_num : (256 : ℝ) ≠ 0)]
    rw [Real.logb_rpow (by norm_num) (by norm_num)]
  unfold zoomTargetClip
  rw [h1, min_eq_left (by norm_num : (-100 : ℝ) ≤ 18),
    show max (1 : ℝ) (-100) = 1 from max_eq_left (by norm_num),
    max_eq_left (by norm_num : (1 : ℝ) ≤ 20)]
  norm_num

/-- C2 (amended): provided `minZoom ≤ maxZoom` and the implicit viewport floor
`log2(height/256)` does not exceed `maxZoom`, the zoom committed by
`setCenterZoomTarget` lies in `[minZoom, maxZoom]`, and so does every
intermediate animation step computed by `animationStep` from a start zoom in
range (the easing maps progress in `[0, duration]` into `[0, 1]`). -/
theorem C2_zoom_clamp (height minZoom maxZoom zoom : ℝ)
    (hmm : minZoom ≤ maxZoom) (hfloor : minZoomAllowed height ≤ maxZoom) :
    (minZoom ≤ zoomTargetClip height minZoom maxZoom zoom ∧
      zoomTargetClip height minZoom maxZoom zoom ≤ maxZoom) ∧
    ∀ zoomStart duration progress : ℝ,
      minZoom ≤ zoomStart → zoomStart ≤ maxZoom →
      0 < duration → 0 ≤ progress → progress ≤ duration →
      minZoom ≤
          zoomStepAt zoomStart (zoomTargetClip height minZoom maxZoom zoom) duration progress ∧
        zoomStepAt zoomStart (zoomTargetClip height minZoom maxZoom zoom) duration progress ≤
          maxZoom := by
  have hup : zoomTargetClip height minZoom maxZoom zoom ≤ maxZoom := by
    unfold zoomTargetClip
    exact max_le hfloor (max_le hmm (min_le_right _ _))
  have hlo : minZoom ≤ zoomTargetClip height minZoom maxZoom zoom :=
    le_trans (le_max_left _ _) (le_max_right _ _)
  refine ⟨⟨hlo, hup⟩, ?_⟩
  intro zs d prog h1 h2 h3 h4 h5
  have ht0 : 0 ≤ prog / d := by positivity
  have ht1 : prog / d ≤ 1 := by rw [div_le_one h3]; exact h5
  have hp0 : 0 ≤ easeOutQuad (prog / d) := by unfold easeOutQuad; nlinarith
  have hp1 : easeOutQuad (prog / d) ≤ 1 := by unfold easeOutQuad; nlinarith
  unfold zoomStepAt
  constructor
  · nlinarith [mul_nonneg (by linarith : (0 : ℝ) ≤ 1 - easeOutQuad (prog / d))
      (by linarith : (0 : ℝ) ≤ zs - minZoom),
      mul_nonneg hp0 (by linarith : (0 : ℝ) ≤ zoomTargetClip height minZoom maxZoom zoom - minZoom)]
  · nlinarith [mul_nonneg (by linarith : (0 : ℝ) ≤ 1 - easeOutQuad (prog / d))
      (by linarith : (0 : ℝ) ≤ maxZoom - zs),
      mul_nonneg hp0 (by linarith : (0 : ℝ) ≤ maxZoom - zoomTargetClip height minZoom maxZoom zoom)]

/-- C2 witness: the default configuration `minZoom = 1`, `maxZoom = 18` with a
256-pixel-tall viewport clamps a requested zoom of `-100` into `[1, 18]`. -/
theorem C2_zoom_clamp_witness :
    (1 : ℝ) ≤ 18 ∧ minZoomAllowed 256 ≤ 18 ∧
    (1 ≤ zoomTargetClip 256 1 18 (-100) ∧ zoomTargetClip 256 1 18 (-100) ≤ 18) := by
  have hfloor : minZoomAllowed 256 ≤ 18 := by
    unfold minZoomAllowed
    rw [show (256 : ℝ) / 256 = 1 by norm_num, Real.logb_one]
    norm_num
  exact ⟨by norm_num, hfloor, (C2_zoom_clamp 256 1 18 (-100) (by norm_num) hfloor).1⟩

/-- C10: the `zoomTarget` computed by `setCenterZoomTarget` is bounded below
both by the configured `minZoom` and by the implicit floor `log2(height/256)`,
so the world map at the committed zoom is never shorter than the viewport. -/
theorem C10_implicit_zoom_floor (height minZoom maxZoom zoom : ℝ) :
    Real.logb 2 (height / 256) ≤ zoomTargetClip height minZoom maxZoom zoom ∧
    minZoom ≤ zoomTargetClip height minZoom maxZoom zoom ∧
    (0 < height → height ≤ 256 * pow2 (zoomTargetClip height minZoom maxZoom zoom)) := by
  refine ⟨le_max_left _ _, le_trans (le_max_left _ _) (le_max_right _ _), ?_⟩
  intro hh
  have hx : (0 : ℝ) < height / 256 := by positivity
  have h1 : height / 256 = (2 : ℝ) ^ Real.logb 2 (height / 256) :=
    (Real.rpow_logb (by norm_num) (by norm_num) hx).symm
  have h2 : (2 : ℝ) ^ Real.logb 2 (height / 256) ≤
      (2 : ℝ) ^ zoomTargetClip height minZoom maxZoom zoom :=
    (Real.rpow_le_rpow_left_iff (by norm_num : (1 : ℝ) < 2)).mpr (le_max_left _ _)
  have h3 : height / 256 ≤ pow2 (zoomTargetClip height minZoom maxZoom zoom) := by
    rw [pow2]; linarith [h1, h2]
  linarith

/-- C3 counterexample: with center `(0, -179)`, pivot `(256, 128)` on a
256 by 256 viewport and a zoom change from 10 to 1, the geographic point under
the pivot, `(0, -45779/256)`, is well inside the valid Web-Mercator range, yet
the new center computed by `calculateZoomCenter` has raw longitude
`-68819/256` (about -268.8 degrees) and is clipped to `-180`, so re-projecting
the pivot's point at the new zoom lands `22739/180` (about 126.3) pixels away
from the pivot - far outside the claimed 1px. -/
theorem C3_zoom_pivot_counterexample :
    (-85.051129 ≤ (pixelToLatLng 256 256 (256, 128) (0, -179) 10).1 ∧
      (pixelToLatLng 256 256 (256, 128) (0, -179) 10).1 ≤ 85.051128 ∧
      -180 ≤ (pixelToLatLng 256 256 (256, 128) (0, -179) 10).2 ∧
      (pixelToLatLng 256 256 (256, 128) (0, -179) 10).2 ≤ 180) ∧
    1 < |(latLngToPixel 256 256 (pixelToLatLng 256 256 (256, 128) (0, -179) 10)
        (calculateZoomCenter 256 256 (0, -179) (256, 128) 10 1) 1).1 - (256 : ℝ)| := by
  have h10 : pow2 10 = 1024 := by
    rw [show (10 : ℝ) = ((10 : ℕ) : ℝ) by norm_num, pow2_natCast]
    norm_num
  have hm9 : pow2 (1 - 10) = 1 / 512 := by
    rw [show (1 : ℝ) - 10 = -((9 : ℕ) : ℝ) by norm_num, pow2,
      Real.rpow_neg (by norm_num : (0 : ℝ) ≤ 2), Real.rpow_natCast]
    norm_num
  have hG : pixelToLatLng 256 256 (256, 128) (0, -179) 10 = (0, -45779 / 256) := by
    simp only [pixelToLatLng]
    rw [Prod.mk.injEq]
    constructor
    · norm_num [lat2tile_zero, tile2lat_half, min_def, max_def]
    · simp only [lng2tile, tile2lng]
      rw [h10]
      norm_num [min_def, max_def]
  have hN : calculateZoomCenter 256 256 (0, -179) (256, 128) 10 1 = (0, -180) := by
    simp only [calculateZoomCenter, pixelToLatLng]
    rw [Prod.mk.injEq]
    constructor
    · norm_num [lat2tile_zero, tile2lat_half, min_def, max_def]
    · simp only [lng2tile, tile2lng]
      rw [hm9, pow2_one]
      norm_num [min_def, max_def]
  refine ⟨?_, ?_⟩
  · rw [hG]
    norm_num
  · rw [hG, hN]
    simp only [latLngToPixel, lng2tile]
    rw [pow2_one, lt_abs]
    right
    norm_num

/-- C3 (amended): the fixed point holds whenever, in addition to the claim's
own proviso that the geographic point under the pivot is within the valid
Mercator range, the new center computed by `calculateZoomCenter` also escapes
`pixelToLatLng`'s clipping (its unclamped latitude and longitude stay inside
the clipping ranges); then projecting that geographic point at the new zoom
against the new center lands exactly on the pivot pixel again (so certainly
within 1px). -/
theorem C3_zoom_pivot_fixed_point (w h : ℝ) (center pivot : ℝ × ℝ) (z0 z1 : ℝ)
    (hG1 : -85.051129 ≤ tile2lat (lat2tile center.1 z0 + (pivot.2 - h / 2) / 256) z0)
    (hG2 : tile2lat (lat2tile center.1 z0 + (pivot.2 - h / 2) / 256) z0 ≤ 85.051128)
    (hG3 : -180 ≤ tile2lng (lng2tile center.2 z0 + (pivot.1 - w / 2) / 256) z0)
    (hG4 : tile2lng (lng2tile center.2 z0 + (pivot.1 - w / 2) / 256) z0 ≤ 180)
    (hN1 : -85.051129 ≤ tile2lat
      (lat2tile center.1 z1 + (pivot.2 - h / 2) * (pow2 (z1 - z0) - 1) / 256) z1)
    (hN2 : tile2lat
      (lat2tile center.1 z1 + (pivot.2 - h / 2) * (pow2 (z1 - z0) - 1) / 256) z1 ≤ 85.051128)
    (hN3 : -180 ≤ tile2lng
      (lng2tile center.2 z1 + (pivot.1 - w / 2) * (pow2 (z1 - z0) - 1) / 256) z1)
    (hN4 : tile2lng
      (lng2tile center.2 z1 + (pivot.1 - w / 2) * (pow2 (z1 - z0) - 1) / 256) z1 ≤ 180) :
    |(latLngToPixel w h (pixelToLatLng w h pivot center z0)
        (calculateZoomCenter w h center pivot z0 z1) z1).1 - pivot.1| ≤ 1 ∧
    |(latLngToPixel w h (pixelToLatLng w h pivot center z0)
        (calculateZoomCenter w h center pivot z0 z1) z1).2 - pivot.2| ≤ 1 := by
  have hG : pixelToLatLng w h pivot center z0 =
      (tile2lat (lat2tile center.1 z0 + (pivot.2 - h / 2) / 256) z0,
       tile2lng (lng2tile center.2 z0 + (pivot.1 - w / 2) / 256) z0) := by
    simp only [pixelToLatLng]
    rw [min_eq_right hG2, max_eq_right hG1, min_eq_right hG4, max_eq_right hG3]
  have harg2 : w / 2 + (pivot.1 - w / 2) * (pow2 (z1 - z0) - 1) - w / 2 =
      (pivot.1 - w / 2) * (pow2 (z1 - z0) - 1) := by ring
  have harg1 : h / 2 + (pivot.2 - h / 2) * (pow2 (z1 - z0) - 1) - h / 2 =
      (pivot.2 - h / 2) * (pow2 (z1 - z0) - 1) := by ring
  have hN : calculateZoomCenter w h center pivot z0 z1 =
      (tile2lat (lat2tile center.1 z1 + (pivot.2 - h / 2) * (pow2 (z1 - z0) - 1) / 256) z1,
       tile2lng (lng2tile center.2 z1 + (pivot.1 - w / 2) * (pow2 (z1 - z0) - 1) / 256) z1) := by
    simp only [calculateZoomCenter, pixelToLatLng, harg1, harg2]
    rw [min_eq_right hN2, max_eq_right hN1, min_eq_right hN4, max_eq_right hN3]
  have hexact : latLngToPixel w h (pixelToLatLng w h pivot center z0)
      (calculateZoomCenter w h center pivot z0 z1) z1 = (pivot.1, pivot.2) := by
    rw [hG, hN]
    simp only [latLngToPixel]
    rw [Prod.ext_iff]
    constructor
    · simp only
      rw [lng2tile_tile2lng_zoom, lng2tile_tile2lng,
        lng2tile_scale center.2 z0 z1]
      ring
    · simp only
      rw [lat2tile_tile2lat_zoom, lat2tile_tile2lat,
        lat2tile_scale center.1 z0 z1]
      ring
  rw [hexact]
  norm_num

/-- C3 witness: a 256 by 256 viewport centered on the origin, pivot at the
viewport center, zooming from level 1 to level 2. -/
theorem C3_zoom_pivot_fixed_point_witness :
    |(latLngToPixel 256 256 (pixelToLatLng 256 256 (128, 128) (0, 0) 1)
        (calculateZoomCenter 256 256 (0, 0) (128, 128) 1 2) 2).1 -
      ((128 : ℝ), (128 : ℝ)).1| ≤ 1 ∧
    |(latLngToPixel 256 256 (pixelToLatLng 256 256 (128, 128) (0, 0) 1)
        (calculateZoomCenter 256 256 (0, 0) (128, 128) 1 2) 2).2 -
      ((128 : ℝ), (128 : ℝ)).2| ≤ 1 :=
  C3_zoom_pivot_fixed_point 256 256 (0, 0) (128, 128) 1 2
    (by norm_num [lat2tile_zero, tile2lat_half])
    (by norm_num [lat2tile_zero, tile2lat_half])
    (by norm_num [lng2tile_zero, tile2lng_half])
    (by norm_num [lng2tile_zero, tile2lng_half])
    (by norm_num [lat2tile_zero, tile2lat_half])
    (by norm_num [lat2tile_zero, tile2lat_half])
    (by norm_num [lng2tile_zero, tile2lng_half])
    (by norm_num [lng2tile_zero, tile2lng_half])

/-- C4 counterexample: at zoom 1 with a 1024-pixel-tall viewport (viewport
taller than the world), `limitCenter` pins the latitude-axis center tile
coordinate at `heightV/2 = 2`, not at the world midpoint `2^zoom/2 = 1`. -/
theorem C4_limitCenter_counterexample :
    lat2tile (limitCenter 1024 ((0 : ℝ), (0 : ℝ)) 1).1 1 ≠ pow2 1 / 2 := by
  have hV : (limitCenter 1024 ((0 : ℝ), (0 : ℝ)) 1).1 = tile2lat 2 1 := by
    simp only [limitCenter]
    congr 1
    norm_num [lat2tile_zero, pow2_one, min_def, max_def]
  rw [hV, lat2tile_tile2lat, pow2_one]
  norm_num

/-- C4 (amended): `limitCenter` maps the latitude-axis center tile coordinate
through `max(heightV/2, min(2^zoom - heightV/2, v))` — inside
`[heightV/2, 2^zoom - heightV/2]` whenever `heightV ≤ 2^zoom`, and collapsed to
the constant `heightV/2` (not the midpoint) when the viewport is taller than
the world — and wraps the longitude-axis center tile coordinate modulo
`2^zoom` into `[0, 2^zoom)`. -/
theorem C4_limitCenter_contract (height : ℝ) (center : ℝ × ℝ) (zoom : ℝ) :
    lat2tile (limitCenter height center zoom).1 zoom =
      max (height / 256 / 2) (min (pow2 zoom - height / 256 / 2) (lat2tile center.1 zoom)) ∧
    (height / 256 ≤ pow2 zoom →
      height / 256 / 2 ≤ lat2tile (limitCenter height center zoom).1 zoom ∧
      lat2tile (limitCenter height center zoom).1 zoom ≤ pow2 zoom - height / 256 / 2) ∧
    (pow2 zoom < height / 256 →
      lat2tile (limitCenter height center zoom).1 zoom = height / 256 / 2) ∧
    lng2tile (limitCenter height center zoom).2 zoom =
      wrapNumber (lng2tile center.2 zoom) (pow2 zoom) ∧
    0 ≤ lng2tile (limitCenter height center zoom).2 zoom ∧
    lng2tile (limitCenter height center zoom).2 zoom < pow2 zoom ∧
    ∃ k : ℤ, lng2tile (limitCenter height center zoom).2 zoom =
      lng2tile center.2 zoom - k * pow2 zoom := by
  have hlat : lat2tile (limitCenter height center zoom).1 zoom =
      max (height / 256 / 2) (min (pow2 zoom - height / 256 / 2) (lat2tile center.1 zoom)) := by
    simp only [limitCenter]
    exact lat2tile_tile2lat _ _
  have hlng : lng2tile (limitCenter height center zoom).2 zoom =
      wrapNumber (lng2tile center.2 zoom) (pow2 zoom) := by
    simp only [limitCenter]
    exact lng2tile_tile2lng _ _
  obtain ⟨hw0, hw1⟩ := wrapNumber_bounds (lng2tile center.2 zoom) (pow2 zoom) (pow2_pos zoom)
  obtain ⟨k, hk⟩ := wrapNumber_sub_int (lng2tile center.2 zoom) (pow2 zoom)
  refine ⟨hlat, ?_, ?_, hlng, ?_, ?_, ⟨k, ?_⟩⟩
  · intro hh
    rw [hlat]
    exact ⟨le_max_left _ _, max_le (by linarith) (min_le_left _ _)⟩
  · intro hh
    rw [hlat]
    exact max_eq_left (le_trans (min_le_left _ _) (by linarith))
  · rw [hlng]; exact hw0
  · rw [hlng]; exact hw1
  · rw [hlng]; exact hk

/-- Clamping to `max lo (min hi _)` is idempotent, also when the interval is
degenerate (`hi < lo`). -/
lemma clamp_idem (lo hi v : ℝ) :
    max lo (min hi (max lo (min hi v))) = max lo (min hi v) := by
  rcases le_total lo hi with h | h
  · have hx1 : lo ≤ max lo (min hi v) := le_max_left _ _
    have hx2 : max lo (min hi v) ≤ hi := max_le h (min_le_left _ _)
    rw [min_eq_right hx2, max_eq_right hx1]
  · have hx : max lo (min hi v) = lo := max_eq_left (le_trans (min_le_left _ _) h)
    rw [hx, min_eq_left h, max_eq_left h]

/-- `wrapNumber` is idempotent for a positive modulus. -/
lemma wrapNumber_idem (x m : ℝ) (hm : 0 < m) :
    wrapNumber (wrapNumber x m) m = wrapNumber x m := by
  obtain ⟨h0, h1⟩ := wrapNumber_bounds x m hm
  exact wrapNumber_eq_self _ _ h0 h1

/-- C5: `limitCenter` is idempotent: limiting an already-limited center is a
no-op, for every center, zoom and viewport height. -/
theorem C5_limitCenter_idempotent (height : ℝ) (center : ℝ × ℝ) (zoom : ℝ) :
    limitCenter height (limitCenter height center zoom) zoom =
      limitCenter height center zoom := by
  simp only [limitCenter]
  rw [lat2tile_tile2lat, lng2tile_tile2lng, clamp_idem,
    wrapNumber_idem _ _ (pow2_pos zoom)]

lemma netZoomIncrement_cons (p q : (ℝ × ℝ) × (ℝ × ℝ)) (l : List ((ℝ × ℝ) × (ℝ × ℝ))) :
    netZoomIncrement (p :: q :: l) =
      zoomIncrement (touchDistance p.1 p.2) (touchDistance q.1 q.2) +
        netZoomIncrement (q :: l) := by
  simp [netZoomIncrement]

/-- The per-move `log2` zoom increments of a pinch gesture telescope: their sum
is the `log2` of the ratio of the final to the initial touch distance. -/
lemma netZoomIncrement_telescope (p pl : (ℝ × ℝ) × (ℝ × ℝ))
    (l : List ((ℝ × ℝ) × (ℝ × ℝ)))
    (hp : 0 < touchDistance p.1 p.2)
    (hl : ∀ q ∈ l, 0 < touchDistance q.1 q.2)
    (hlast : (p :: l).getLast? = some pl) :
    netZoomIncrement (p :: l) =
      Real.logb 2 (touchDistance pl.1 pl.2 / touchDistance p.1 p.2) := by
  induction l generalizing p with
  | nil =>
    have hpl : p = pl := by simpa using hlast
    subst hpl
    simp only [netZoomIncrement]
    rw [div_self hp.ne', Real.logb_one]
  | cons q r ih =>
    have hq : 0 < touchDistance q.1 q.2 := hl q (List.mem_cons_self q r)
    have hr : ∀ x ∈ r, 0 < touchDistance x.1 x.2 := fun x hx => hl x (List.mem_cons_of_mem _ hx)
    have hlast2 : (q :: r).getLast? = some pl := by
      rw [← hlast, List.getLast?_cons_cons]
    have hpl : 0 < touchDistance pl.1 pl.2 := by
      rcases List.mem_cons.mp (List.mem_of_getLast?_eq_some hlast2) with h | h
      · exact h ▸ hq
      · exact hr pl h
    rw [netZoomIncrement_cons, ih q hq hr hlast2]
    unfold zoomIncrement
    rw [← Real.logb_mul (div_pos hq hp).ne' (div_pos hpl hq).ne']
    congr 1
    field_simp
    ring

/-- C6: a two-finger gesture whose touch separation starts at 100px and ends at
200px accumulates, over the per-move `log2` increments of `handleTouchMove`, a
net zoom increment of exactly 1. -/
theorem C6_pinch_zoom_increment (l : List ((ℝ × ℝ) × (ℝ × ℝ)))
    (pFirst pLast : (ℝ × ℝ) × (ℝ × ℝ))
    (hpos : ∀ q ∈ l, 0 < touchDistance q.1 q.2)
    (hhead : l.head? = some pFirst) (hlast : l.getLast? = some pLast)
    (h100 : touchDistance pFirst.1 pFirst.2 = 100)
    (h200 : touchDistance pLast.1 pLast.2 = 200) :
    netZoomIncrement l = 1 := by
  cases l with
  | nil => simp at hhead
  | cons p t =>
    have hp : p = pFirst := by simpa using hhead
    subst hp
    rw [netZoomIncrement_telescope p pLast t (hpos p (List.mem_cons_self p t))
      (fun q hq => hpos q (List.mem_cons_of_mem _ hq)) hlast]
    rw [h100, h200, show (200 : ℝ) / 100 = 2 by norm_num]
    exact Real.logb_self_eq_one (by norm_num)

/-- C6 witness: a pinch whose separation goes 100px, 150px, 200px over two
moves accumulates a net zoom increment of exactly 1. -/
theorem C6_pinch_zoom_increment_witness :
    netZoomIncrement
      [(((0 : ℝ), (0 : ℝ)), ((100 : ℝ), (0 : ℝ))),
       (((0 : ℝ), (0 : ℝ)), ((150 : ℝ), (0 : ℝ))),
       (((0 : ℝ), (0 : ℝ)), ((200 : ℝ), (0 : ℝ)))] = 1 := by
  have e1 : touchDistance ((0 : ℝ), (0 : ℝ)) ((100 : ℝ), (0 : ℝ)) = 100 := by
    simp only [touchDistance]
    norm_num
    rw [show (10000 : ℝ) = 100 ^ 2 by norm_num]
    exact Real.sqrt_sq (by norm_num)
  have e2 : touchDistance ((0 : ℝ), (0 : ℝ)) ((150 : ℝ), (0 : ℝ)) = 150 := by
    simp only [touchDistance]
    norm_num
    rw [show (22500 : ℝ) = 150 ^ 2 by norm_num]
    exact Real.sqrt_sq (by norm_num)
  have e3 : touchDistance ((0 : ℝ), (0 : ℝ)) ((200 : ℝ), (0 : ℝ)) = 200 := by
    simp only [touchDistance]
    norm_num
    rw [show (40000 : ℝ) = 200 ^ 2 by norm_num]
    exact Real.sqrt_sq (by norm_num)
  refine C6_pinch_zoom_increment _
    (((0 : ℝ), (0 : ℝ)), ((100 : ℝ), (0 : ℝ)))
    (((0 : ℝ), (0 : ℝ)), ((200 : ℝ), (0 : ℝ))) ?_ ?_ ?_ ?_ ?_
  · intro q hq
    simp only [List.mem_cons, List.not_mem_nil, or_false] at hq
    rcases hq with h | h | h <;> subst h
    · show 0 < touchDistance ((0 : ℝ), (0 : ℝ)) ((100 : ℝ), (0 : ℝ))
      rw [e1]; norm_num
    · show 0 < touchDistance ((0 : ℝ), (0 : ℝ)) ((150 : ℝ), (0 : ℝ))
      rw [e2]; norm_num
    · show 0 < touchDistance ((0 : ℝ), (0 : ℝ)) ((200 : ℝ), (0 : ℝ))
      rw [e3]; norm_num
  · rfl
  · rfl
  · show touchDistance ((0 : ℝ), (0 : ℝ)) ((100 : ℝ), (0 : ℝ)) = 100
    exact e1
  · show touchDistance ((0 : ℝ), (0 : ℝ)) ((200 : ℝ), (0 : ℝ)) = 200
    exact e3

/-- C7: `setCenterZoom` is a no-op (state untouched, including the stale
layers, and no `onBoundsChanged` call) exactly on requests whose limited
center equals the current center and whose rounded zoom equals the current
rounded zoom; any other request commits the limited center together with the
fractional zoom and fires exactly one notification with `initial := false`. -/
theorem C7_setCenterZoom_noop_and_notify (anim : Bool) (s : MapState) (req : ℝ × ℝ) (z : ℝ) :
    (limitCenter s.height req z = s.center ∧ round z = round s.zoom →
      (setCenterZoom anim s req z).state = s ∧
      (setCenterZoom anim s req z).notification = none) ∧
    (limitCenter s.height req z ≠ s.center ∨ round z ≠ round s.zoom →
      (setCenterZoom anim s req z).state.center = limitCenter s.height req z ∧
      (setCenterZoom anim s req z).state.zoom = z ∧
      (setCenterZoom anim s req z).notification = some
        { center := limitCenter s.height req z
          zoom := z
          bounds := getBounds s.width s.height (limitCenter s.height req z) z
          initial := false
          isAnimating := anim }) := by
  constructor
  · rintro ⟨hc, hz⟩
    have hzc : ¬(round s.zoom ≠ round z) := not_not_intro hz.symm
    have hcc : ¬((limitCenter s.height req z).1 ≠ s.center.1 ∨
        (limitCenter s.height req z).2 ≠ s.center.2) := by
      rw [hc]
      simp
    simp only [setCenterZoom]
    rw [if_neg hzc, if_neg (not_or.mpr ⟨hzc, hcc⟩)]
    exact ⟨rfl, rfl⟩
  · intro hne
    have hcond : (round s.zoom ≠ round z) ∨
        ((limitCenter s.height req z).1 ≠ s.center.1 ∨
          (limitCenter s.height req z).2 ≠ s.center.2) := by
      rcases hne with h | h
      · right
        rw [Ne, Prod.ext_iff, not_and_or] at h
        exact h
      · exact Or.inl (Ne.symm h)
    simp only [setCenterZoom]
    rw [if_pos hcond]
    exact ⟨rfl, rfl, rfl⟩

/-- C8: after a rounded-zoom-changing `setCenterZoom` the prior tile grid
appears in the stale-layer list tagged with its original rounded zoom, with any
pre-existing stale layer at that rounded zoom removed first; and `onTileLoaded`
for a tracked key empties the stale-layer list exactly when every key of the
updated load tracker is marked loaded. -/
theorem C8_stale_layer_lifecycle (anim : Bool) (s : MapState) (req : ℝ × ℝ) (z : ℝ)
    (tracker : List (String × Bool)) (oldTiles : List TileValues) (key : String)
    (hzc : round s.zoom ≠ round z)
    (hkey : key ∈ tracker.map Prod.fst)
    (hne : oldTiles ≠ []) :
    ((setCenterZoom anim s req z).state.oldTiles =
        (s.oldTiles.filter fun o => o.roundedZoom != (tileValues s).roundedZoom) ++
          [tileValues s] ∧
      (tileValues s).roundedZoom = round s.zoom ∧
      tileValues s ∈ (setCenterZoom anim s req z).state.oldTiles ∧
      ∀ o ∈ (setCenterZoom anim s req z).state.oldTiles,
        o.roundedZoom = round s.zoom → o = tileValues s) ∧
    ((onTileLoaded tracker oldTiles key).2 = [] ↔
      ∀ e ∈ tracker.map fun e => if e.1 = key then (e.1, true) else e, e.2 = true) := by
  have hrz : (tileValues s).roundedZoom = round s.zoom := rfl
  have hold : (setCenterZoom anim s req z).state.oldTiles =
      (s.oldTiles.filter fun o => o.roundedZoom != (tileValues s).roundedZoom) ++
        [tileValues s] := by
    simp only [setCenterZoom]
    rw [if_pos (Or.inl hzc), if_pos hzc]
  constructor
  · refine ⟨hold, hrz, ?_, ?_⟩
    · rw [hold]
      exact List.mem_append_right _ (List.mem_singleton_self _)
    · intro o ho hoz
      rw [hold] at ho
      rcases List.mem_append.mp ho with hof | hos
      · exfalso
        have hp := List.of_mem_filter hof
        rw [bne_iff_ne, hrz] at hp
        exact hp hoz
      · exact List.mem_singleton.mp hos
  · have hall : ((tracker.map fun e => if e.1 = key then (e.1, true) else e).filter
        fun e => !e.2).length = 0 ↔
        ∀ e ∈ tracker.map fun e => if e.1 = key then (e.1, true) else e, e.2 = true := by
      rw [List.length_eq_zero, List.filter_eq_nil_iff]
      constructor
      · intro h e he
        have := h e he
        simpa using this
      · intro h e he
        simp [h e he]
    simp only [onTileLoaded]
    rw [if_pos (List.elem_iff.mpr hkey)]
    split_ifs with h
    · simp only [eq_self_iff_true, true_iff]
      exact hall.mp h
    · exact iff_of_false hne fun hh => h (hall.mpr hh)

/-- C8 witness: a concrete zoom change from 2 to 3 on a 256 by 256 viewport,
with a single-key load tracker. -/
theorem C8_stale_layer_lifecycle_witness :
    tileValues ⟨(0, 0), 2, 256, 256, []⟩ ∈
      (setCenterZoom true ⟨(0, 0), 2, 256, 256, []⟩ (0, 0) 3).state.oldTiles ∧
    ((onTileLoaded [("t", false)] [tileValues ⟨(0, 0), 2, 256, 256, []⟩] "t").2 = [] ↔
      ∀ e ∈ [("t", false)].map fun e => if e.1 = "t" then (e.1, true) else e,
        e.2 = true) := by
  have h := C8_stale_layer_lifecycle true ⟨(0, 0), 2, 256, 256, []⟩ (0, 0) 3
    [("t", false)] [tileValues ⟨(0, 0), 2, 256, 256, []⟩] "t"
    (by simp) (by simp) (by simp)
  exact ⟨h.1.2.2.1, h.2⟩

end

end PigeonMaps
